import Mathlib

/-!
Verification of the session-scoped edit-versioning and segment-processing
pipeline of the video-editor backend (`backend/index.js`, the session-based
variant) and the word-selection filter of the frontend (`app/page.tsx`).

Times are modelled as exact rationals (`Rat`).  A JS `number` that may be
`NaN` is modelled as `Option Rat` with `none` standing for `NaN`.  A JS
exception (`TypeError` from dereferencing `undefined`) is modelled with
`Except`.  JS `Map` values are modelled as association lists, JS `Set`s as
lists with membership semantics.  External collaborators (ffmpeg, whisper)
are modelled as oracle parameters: the core only constructs the operation
parameters and delegates execution.
-/

deriving instance DecidableEq for Except

namespace VideoEditor

/-- A time range `{start, end}` as sent in requests and built by the pipeline. -/
structure Seg where
  start : Rat
  «end» : Rat
deriving Repr, DecidableEq

/-! ### JS primitives used by the parser -/

/-- Helper for JS `String.prototype.split` with a one-character separator. -/
def jsSplitCharAux (sep : Char) : List Char → List Char → List (List Char)
  | [], acc => [acc.reverse]
  | c :: cs, acc =>
    if c == sep then acc.reverse :: jsSplitCharAux sep cs []
    else jsSplitCharAux sep cs (c :: acc)

/-- JS `s.split(sep)` for a one-character separator: every occurrence cuts,
and `""` splits to `[""]`. -/
def jsSplitChar (sep : Char) (s : String) : List String :=
  (jsSplitCharAux sep s.data []).map fun l => ⟨l⟩

/-- Helper for JS `String.prototype.split` with a (non-empty) string
separator; the first argument is fuel, always at least the input length. -/
def jsSplitStrAux (sep : List Char) : Nat → List Char → List Char → List (List Char)
  | 0, l, acc => [acc.reverse ++ l]
  | _ + 1, [], acc => [acc.reverse]
  | fuel + 1, c :: cs, acc =>
    if sep.isPrefixOf (c :: cs) then
      acc.reverse :: jsSplitStrAux sep fuel ((c :: cs).drop sep.length) []
    else
      jsSplitStrAux sep fuel cs (c :: acc)

/-- JS `s.split(sep)` for a non-empty string separator: cuts at each
non-overlapping occurrence, left to right. -/
def jsSplitStr (sep : String) (s : String) : List String :=
  (jsSplitStrAux sep.data (s.data.length + 1) s.data []).map fun l => ⟨l⟩

/-- JS `String.prototype.toLowerCase` (ASCII case mapping, which is all the
vocabulary comparison relies on). -/
def jsToLower (s : String) : String :=
  ⟨s.data.map Char.toLower⟩

/-- Decimal digits of a leading-digit prefix, as JS `parseInt` consumes them. -/
def digitsPrefix : List Char → List Char
  | [] => []
  | c :: cs => if c.isDigit then c :: digitsPrefix cs else []

/-- Value of a non-empty digit list; `none` when there is no digit (JS `NaN`). -/
def digitsToNat? (l : List Char) : Option Nat :=
  if l.isEmpty then none
  else some (l.foldl (fun acc c => acc * 10 + (c.toNat - 48)) 0)

/-- JS `parseInt(s)` over a decimal string: skips leading whitespace, accepts an
optional sign, reads leading decimal digits, and yields `NaN` (here `none`)
when no digit is found.  (The automatic hexadecimal `0x` prefix of JS
`parseInt`, irrelevant to subtitle data, is not modelled.) -/
def parseIntJs (s : String) : Option Int :=
  let cs := s.data.dropWhile fun c => c == ' ' || c == '\t' || c == '\n' || c == '\r'
  match cs with
  | '-' :: rest => (digitsToNat? (digitsPrefix rest)).map fun n => -(n : Int)
  | '+' :: rest => (digitsToNat? (digitsPrefix rest)).map fun n => (n : Int)
  | _ => (digitsToNat? (digitsPrefix cs)).map fun n => (n : Int)

/-- The backend's `srtTimeToSeconds`: destructures `split(':')` into `[h, m, rest]`
and `rest.split(',')` into `[s, ms]`, then computes
`parseInt(h)*3600 + parseInt(m)*60 + parseInt(s) + parseInt(ms)/1000`.
When the string holds fewer than two colons, `rest` is `undefined` in JS and
`rest.split` throws a `TypeError` (modelled as `.error`).  Any `parseInt`
producing `NaN` makes the whole sum `NaN` (modelled as `.ok none`). -/
def srtTimeToSeconds (srtTime : String) : Except String (Option Rat) :=
  match jsSplitChar ':' srtTime with
  | h :: m :: rest :: _ =>
    let sms := jsSplitChar ',' rest
    let s := sms.headD ""
    let ms? := sms[1]?
    .ok (match parseIntJs h, parseIntJs m, parseIntJs s, ms?.bind parseIntJs with
         | some hv, some mv, some sv, some msv =>
           some ((hv : Rat) * 3600 + (mv : Rat) * 60 + (sv : Rat) + (msv : Rat) / 1000)
         | _, _, _, _ => none)
  | _ => .error "TypeError: rest is undefined"

/-- One subtitle entry produced by the session backend's `parseSRT`. -/
structure SrtEntry where
  index : Option Int
  start : String
  «end» : String
  text : String
  startSeconds : Option Rat
  endSeconds : Option Rat
deriving Repr, DecidableEq

/-- Test of the JS regex `/^\d+$/` on one line. -/
def isDigitsOnly (s : String) : Bool :=
  !s.isEmpty && s.data.all (·.isDigit)

/-- JS truthiness of a possibly-missing line: `undefined` and `""` are falsy. -/
def jsTruthy : Option String → Bool
  | none => false
  | some s => !s.isEmpty

/-- Body of one iteration of the session backend's `parseSRT` loop for a block
whose first line is all digits: when `timestamp && text` is truthy the entry is
built (this may throw: the timestamp line is split on `" --> "`, and a missing
second half makes `srtTimeToSeconds(end)` dereference `undefined`); otherwise
the block is skipped and contributes nothing. -/
def srtBlockEntry (line : String) (timestamp? text? : Option String) :
    Except String (Option SrtEntry) :=
  if jsTruthy timestamp? && jsTruthy text? then
    let timestamp := timestamp?.getD ""
    let text := text?.getD ""
    let parts := jsSplitStr " --> " timestamp
    let startStr := parts.headD ""
    match parts[1]? with
    | none => .error "TypeError: end is undefined"
    | some endStr =>
      match srtTimeToSeconds startStr with
      | .error e => .error e
      | .ok ss =>
        match srtTimeToSeconds endStr with
        | .error e => .error e
        | .ok es =>
          .ok (some { index := parseIntJs line, start := startStr, «end» := endStr,
                      text := text, startSeconds := ss, endSeconds := es })
  else
    .ok none

/-- The session backend's `parseSRT` over the `'\n'`-split line list: a line
matching `/^\d+$/` starts a block whose timestamp line and text line are the
next two lines; after a block the index jumps by 4, otherwise by 1. -/
def parseSRTLines : List String → Except String (List SrtEntry)
  | [] => .ok []
  | line :: rest =>
    if isDigitsOnly line then
      match srtBlockEntry line rest[0]? rest[1]? with
      | .error e => .error e
      | .ok entry? =>
        match rest with
        | _ :: _ :: _ :: rest' =>
          (match parseSRTLines rest' with
           | .error e => .error e
           | .ok entries => .ok (match entry? with
                                 | some e => e :: entries
                                 | none => entries))
        | _ =>
          (match entry? with
           | some e => .ok [e]
           | none => .ok [])
    else
      parseSRTLines rest

/-- The whole parser: split the raw SRT text on `'\n'` and run the block loop. -/
def parseSRT (srt : String) : Except String (List SrtEntry) :=
  parseSRTLines (jsSplitChar '\n' srt)

/-! ### Profanity Resolver (`findProfanityTimestamps` and its vocabulary) -/

/-- The backend's static English profanity list, verbatim. -/
def englishProfanity : List String :=
  ["damn", "hell", "crap", "piss", "ass", "bitch", "bastard", "shit", "fuck",
   "fucking", "motherfucker", "cocksucker", "dickhead", "asshole", "bullshit",
   "dumbass", "jackass", "smartass", "cunt", "whore", "slut", "faggot", "nigger",
   "retard", "goddamn", "jesus christ", "holy shit", "god damn", "dick", "cock",
   "pussy", "tits", "boobs", "balls", "wtf", "stfu", "gtfo", "omfg", "fml",
   "f*ck", "f**k", "sh*t", "b*tch", "a**hole", "d*mn"]

/-- The backend's static Hindi profanity list, verbatim. -/
def hindiProfanity : List String :=
  ["चूतिया", "मादरचोद", "बहनचोद", "भोसड़ीके", "रंडी", "हरामी", "कमीना",
   "कुत्ता", "कुत्ती", "साला", "साली", "गांडू", "लंड", "लौड़ा", "भोसड़ा",
   "चूत", "गांड", "बहन की चूत", "मां की चूत", "तेरी मां", "चिनाल", "पटाका",
   "हिजड़ा", "चक्का", "आइटम", "रांड", "भड़वा", "दलाल", "चिनल", "कमीनी",
   "हरामखोर", "नाजायज", "बदमाश", "गुंडा", "लफंगा", "कुत्ते", "सुअर",
   "कमीने", "हरामजादे", "बेशर्म", "निकम्मा", "बेवकूफ", "गधा", "उल्लू"]

/-- The backend's `getAllProfanityWords`: a `Set` built from the lowercased
static lists, the process-wide custom list (already stored lowercased), and the
lowercased `customWords` of this call.  The JS `Set` is modelled as a list used
only through membership, so duplicates are irrelevant. -/
def getAllProfanityWords (customProfanityList : List String)
    (customWords : List String) : List String :=
  englishProfanity.map jsToLower ++ hindiProfanity.map jsToLower ++
    customProfanityList ++ customWords.map jsToLower

/-- One element of `highlightedWords`: the token, its position, its
classification, and (profane tokens only) which detector fired. -/
structure HighlightedWord where
  word : String
  index : Nat
  isProfane : Bool
  detectedBy : Option String
deriving Repr, DecidableEq

/-- One element of the flat `detectedWords` list. -/
structure DetectedWord where
  word : String
  timestamp : Rat
  sentence : String
deriving Repr, DecidableEq

/-- One word with its own timing in the Whisper JSON output. -/
structure WhisperWord where
  word : String
  start : Rat
  «end» : Rat
deriving Repr, DecidableEq

/-- One canonical transcript entry as produced by `parseWhisperJson` (the
richer source format: `start`/`end` are already fractional seconds and
`startSeconds`/`endSeconds` duplicate them). -/
structure TranscriptEntry where
  index : Nat
  start : Rat
  «end» : Rat
  text : String
  startSeconds : Rat
  endSeconds : Rat
  words : List WhisperWord
deriving Repr, DecidableEq

/-- One profane time segment emitted by `findProfanityTimestamps`. -/
structure ProfanitySegment where
  start : Rat
  «end» : Rat
  text : String
  highlightedWords : List HighlightedWord
  index : Nat
deriving Repr, DecidableEq

/-- The pair returned by `findProfanityTimestamps`. -/
structure ProfanityResult where
  segments : List ProfanitySegment
  detectedWords : List DetectedWord
deriving Repr, DecidableEq

/-- The inner `for (let i = 0; ...)` loop of `findProfanityTimestamps` over the
tokens of one entry, accumulating `highlightedWords`, the entry's contribution
to `detectedWords`, and the `hasProfanity` flag.  The external
`filterBadWords(word, lang)` collaborator is the oracle `filterBadWords`
(the language hint is baked into it).  A token is profane when its lowercased
text is in the combined vocabulary or the filter changed it; `detectedBy` is
`'filter'` when the filter changed it, else `'list'`. -/
def loopWords (allProfanity : List String) (filterBadWords : String → String)
    (entry : TranscriptEntry) (i : Nat) :
    List String → List HighlightedWord × List DetectedWord × Bool
  | [] => ([], [], false)
  | word :: restWords =>
    let wordLower := jsToLower word
    let filtered := filterBadWords word
    let isProfane := allProfanity.contains wordLower || filtered != word
    let r := loopWords allProfanity filterBadWords entry (i + 1) restWords
    if isProfane then
      (⟨word, i, true, some (if filtered != word then "filter" else "list")⟩ :: r.1,
       ⟨word, entry.start, entry.text⟩ :: r.2.1, true)
    else
      (⟨word, i, false, none⟩ :: r.1, r.2.1, r.2.2)

/-- The outer `for (const entry of entries)` loop of `findProfanityTimestamps`:
each entry's text is split on `' '`; when at least one token is profane a
segment carrying the entry's `startSeconds`/`endSeconds`, text, highlighted
words and index is pushed. -/
def findProfanityLoop (allProfanity : List String)
    (filterBadWords : String → String) :
    List TranscriptEntry → ProfanityResult
  | [] => ⟨[], []⟩
  | entry :: rest =>
    let words := jsSplitChar ' ' entry.text
    let scanned := loopWords allProfanity filterBadWords entry 0 words
    let r := findProfanityLoop allProfanity filterBadWords rest
    if scanned.2.2 then
      ⟨⟨entry.startSeconds, entry.endSeconds, entry.text, scanned.1, entry.index⟩
         :: r.segments,
       scanned.2.1 ++ r.detectedWords⟩
    else
      ⟨r.segments, scanned.2.1 ++ r.detectedWords⟩

/-- The session backend's `findProfanityTimestamps(entries, lang, customWords)`.
The process-wide `customProfanityList` is passed explicitly; the external
filter is the `filterBadWords` oracle. -/
def findProfanityTimestamps (customProfanityList : List String)
    (filterBadWords : String → String) (entries : List TranscriptEntry)
    (customWords : List String) : ProfanityResult :=
  findProfanityLoop (getAllProfanityWords customProfanityList customWords)
    filterBadWords entries

/-! ### The frontend word-selection path (`handleMuteAndProcess` in `page.tsx`) -/

/-- The frontend's segment selection: keep the profanity segments having at
least one highlighted word that is profane and whose lowercased text is in
`selectedWords`, and emit their `(start, end)` ranges. -/
def filterSegmentsBySelectedWords (profanityData : List ProfanitySegment)
    (selectedWords : List String) : List (Rat × Rat) :=
  (profanityData.filter fun segment =>
      segment.highlightedWords.any fun hw =>
        hw.isProfane && selectedWords.contains (jsToLower hw.word)).map
    fun s => (s.start, s.«end»)

/-- Modelled from the spec: the word-selection filter as the specification
words it, keeping the segments having at least one highlighted token whose
lowercased text is in the selected set — with no requirement that the token be
flagged profane.  Used only to compare the specification's wording against the
code. -/
def filterSegmentsSpecWorded (profanityData : List ProfanitySegment)
    (selectedWords : List String) : List (Rat × Rat) :=
  (profanityData.filter fun segment =>
      segment.highlightedWords.any fun hw =>
        selectedWords.contains (jsToLower hw.word)).map
    fun s => (s.start, s.«end»)

/-! ### Media operation construction (`trimVideo`, `muteProfanitySegments`,
`removeAudioFromSegments`).  Each function validates and builds the ffmpeg
operation parameters, then delegates execution to an oracle standing for the
external media engine; on success it resolves the basename of the output
path, exactly as the backend's promises do. -/

/-- Basename of a path, as `path.basename` yields it for the paths built here. -/
def basename (p : String) : String :=
  ((jsSplitChar '/' p).getLast?).getD p

/-- One `trim`/`atrim` clause pair of the join filter graph: stream label `i`
trims `[0:v]`/`[0:a]` to `start=.. : end=..`. -/
structure TrimClause where
  label : Nat
  start : Rat
  «end» : Rat
deriving Repr, DecidableEq

/-- The ffmpeg operation `trimVideo` constructs: a single `-ss start -t
duration` cut, or a filter graph of per-range clauses concatenated (by
`concat=n=count`) in clause-list order. -/
inductive TrimResult where
  | single (seekStart duration : Rat)
  | joined (clauses : List TrimClause) (count : Nat)
deriving Repr, DecidableEq

/-- Clause list built by the `segments.forEach((segment, i) => ...)` loop of
`trimVideo`: segment `i` becomes the clause labelled `i`, and the concat input
order `[v0][a0][v1][a1]...` follows the clause-list order. -/
def buildJoinClauses (segments : List Seg) : List TrimClause :=
  segments.enum.map fun p => ⟨p.1, p.2.start, p.2.«end»⟩

/-- Configuration dispatch of `trimVideo`: one segment without join is a
single cut `-ss start -t (end - start)`; join with more than one segment is
the concatenation graph; anything else rejects with
`'Invalid trim configuration'`. -/
def trimVideoPlan (segments : List Seg) (joinSegments : Bool) :
    Except String TrimResult :=
  if segments.length == 1 && !joinSegments then
    match segments.head? with
    | some s => .ok (.single s.start (s.«end» - s.start))
    | none => .error "Invalid trim configuration"
  else if joinSegments && segments.length > 1 then
    .ok (.joined (buildJoinClauses segments) segments.length)
  else
    .error "Invalid trim configuration"

/-- The backend's `trimVideo(inputPath, outputPath, segments, joinSegments)`:
build the configuration, run ffmpeg (the `exec` oracle), and resolve
`{filename: path.basename(outputPath)}`. -/
def trimVideo (exec : TrimResult → Except String Unit) (outputPath : String)
    (segments : List Seg) (joinSegments : Bool) : Except String String :=
  match trimVideoPlan segments joinSegments with
  | .error e => .error e
  | .ok plan =>
    match exec plan with
    | .error e => .error e
    | .ok _ => .ok (basename outputPath)

/-- The ffmpeg operation `muteProfanitySegments` constructs: a `-c copy`
pass-through when there is no segment, else the chain of
`volume=enable='between(t,start,end)':volume=0` filters over the ranges. -/
inductive MutePlan where
  | copyFile
  | muteFilter (segments : List Seg)
deriving Repr, DecidableEq

/-- The backend's `muteProfanitySegments(inputPath, outputPath, segments)`:
zero segments copy the file as-is, otherwise the volume-filter graph is run;
either way success resolves the basename of the output path. -/
def muteProfanitySegments (exec : MutePlan → Except String Unit)
    (outputPath : String) (segments : List Seg) : Except String String :=
  let plan := if segments.length == 0 then MutePlan.copyFile
              else MutePlan.muteFilter segments
  match exec plan with
  | .error e => .error e
  | .ok _ => .ok (basename outputPath)

/-- The ffmpeg operation `removeAudioFromSegments` constructs: when segments
are present, one volume filter enabled on the `+`-joined `between` conditions;
else an audio `copy` filter. -/
inductive AudioRemovePlan where
  | copyAudio
  | volumeMute (segments : List Seg)
deriving Repr, DecidableEq

/-- The backend's `removeAudioFromSegments(inputPath, outputPath, segments)`
(`segments` may be absent in the request body). -/
def removeAudioFromSegments (exec : AudioRemovePlan → Except String Unit)
    (outputPath : String) (segments : Option (List Seg)) :
    Except String String :=
  let plan := match segments with
              | some l => if l.length > 0 then AudioRemovePlan.volumeMute l
                          else AudioRemovePlan.copyAudio
              | none => AudioRemovePlan.copyAudio
  match exec plan with
  | .error e => .error e
  | .ok _ => .ok (basename outputPath)

/-! ### Session & Version Store -/

/-- A session in `videoSessions`: the uploaded source videos (kept as stored
paths) and the monotonic version counter starting at 0. -/
structure Session where
  id : String
  videos : List String
  currentVersion : Nat
deriving Repr, DecidableEq

/-- The `sourceVersion` reference of a request after the handler's
`=== 'original'` test and `parseInt`. -/
inductive SourceVersion where
  | original
  | v (n : Int)
deriving Repr, DecidableEq

/-- One record of a session's `editHistory` chain.  The audit-only payload
fields (timestamp, the operation's input parameters echoed back for history
display) are never read by any lookup and are not modelled. -/
structure EditEntry where
  version : Nat
  type : String
  filename : String
  sourceVersion : SourceVersion
deriving Repr, DecidableEq

/-- The process-wide mutable state: the `videoSessions` map, the `editHistory`
map, and the `customProfanityList` set. -/
structure Store where
  videoSessions : List (String × Session)
  editHistory : List (String × List EditEntry)
  customProfanityList : List String
deriving Repr, DecidableEq

/-- JS `Map.prototype.set`: replace the value under an existing key in place,
else append the binding. -/
def mapSet {α : Type} (m : List (String × α)) (k : String) (v : α) :
    List (String × α) :=
  match m with
  | [] => [(k, v)]
  | (k0, v0) :: rest =>
    if k0 == k then (k, v) :: rest else (k0, v0) :: mapSet rest k v

/-- JS `Set.prototype.add`: append when absent. -/
def setAdd (s : List String) (w : String) : List String :=
  if s.contains w then s else s ++ [w]

/-- The `editHistory.get(sessionId) || []` access. -/
def histOf (st : Store) (sessionId : String) : List EditEntry :=
  (st.editHistory.lookup sessionId).getD []

/-- The `videoSessions.get(sessionId)` access. -/
def sessOf (st : Store) (sessionId : String) : Option Session :=
  st.videoSessions.lookup sessionId

/-- HTTP outcome of one handler: success carries the new version number and
output filename; `notFound` is a 404 response; `internalError` is the
catch-all 500 (configuration errors, executor failures, and JS `TypeError`s
all surface here). -/
inductive Outcome where
  | ok (version : Nat) (outputFile : String)
  | notFound (msg : String)
  | internalError (msg : String)
deriving Repr, DecidableEq

/-- Success test on an outcome. -/
def Outcome.isOk : Outcome → Bool
  | .ok _ _ => true
  | _ => false

/-- The `TypeError` raised when `session` is `undefined` and the handler reads
`session.currentVersion` while building the output path. -/
def typeErrorMsg : String :=
  "TypeError: cannot read currentVersion of undefined"

/-- The input-resolution block shared by the three edit handlers:
`sourceVersion === 'original'` maps straight to the upload path with no
session-existence check; otherwise the version number is looked up in
`editHistory.get(sessionId) || []` and a missing version is a 404. -/
def resolveInputPath (st : Store) (sessionId fileId : String)
    (sourceVersion : SourceVersion) : Except Outcome String :=
  match sourceVersion with
  | .original => .ok ("uploads/" ++ fileId ++ ".mp4")
  | .v n =>
    match (histOf st sessionId).find? (fun h => (h.version : Int) == n) with
    | none => .error (.notFound "Version not found")
    | some entry => .ok ("processed/" ++ entry.filename)

/-- The version-append block shared by the edit handlers:
`session.currentVersion++`, build the edit record carrying the incremented
number, and push it onto `editHistory.get(sessionId) || []`. -/
def appendVersion (st : Store) (sessionId : String) (session : Session)
    (ty filename : String) (sourceVersion : SourceVersion) : Nat × Store :=
  let newVersion := session.currentVersion + 1
  let entry : EditEntry := ⟨newVersion, ty, filename, sourceVersion⟩
  (newVersion,
   { st with
       videoSessions :=
         mapSet st.videoSessions sessionId { session with currentVersion := newVersion },
       editHistory :=
         mapSet st.editHistory sessionId (histOf st sessionId ++ [entry]) })

/-- The `/api/process/trim` handler: fetch the session, resolve the input,
build the output path (reading `session.currentVersion` — a `TypeError` when
the session is unknown), run `trimVideo`, and append the version record only
after it resolves.  Any thrown error is caught and returned as a 500. -/
def processTrim (exec : TrimResult → Except String Unit) (st : Store)
    (fileId sessionId : String) (segments : List Seg) (joinSegments : Bool)
    (sourceVersion : SourceVersion) : Outcome × Store :=
  match resolveInputPath st sessionId fileId sourceVersion with
  | .error o => (o, st)
  | .ok _inputPath =>
    match sessOf st sessionId with
    | none => (.internalError typeErrorMsg, st)
    | some session =>
      let outputPath := "processed/" ++ fileId ++ "_v" ++
        toString (session.currentVersion + 1) ++ "_trimmed.mp4"
      match trimVideo exec outputPath segments joinSegments with
      | .error e => (.internalError e, st)
      | .ok filename =>
        let r := appendVersion st sessionId session "trim" filename sourceVersion
        (.ok r.1 filename, r.2)

/-- The `/api/process/audio-remove` handler, of the same shape as the trim
handler around `removeAudioFromSegments`. -/
def processAudioRemove (exec : AudioRemovePlan → Except String Unit)
    (st : Store) (fileId sessionId : String) (segments : Option (List Seg))
    (sourceVersion : SourceVersion) : Outcome × Store :=
  match resolveInputPath st sessionId fileId sourceVersion with
  | .error o => (o, st)
  | .ok _inputPath =>
    match sessOf st sessionId with
    | none => (.internalError typeErrorMsg, st)
    | some session =>
      let outputPath := "processed/" ++ fileId ++ "_v" ++
        toString (session.currentVersion + 1) ++ "_audio_removed.mp4"
      match removeAudioFromSegments exec outputPath segments with
      | .error e => (.internalError e, st)
      | .ok filename =>
        let r := appendVersion st sessionId session "audio_removal" filename sourceVersion
        (.ok r.1 filename, r.2)

/-- The `/api/process/profanity` handler: after the shared resolution steps it
merges the lowercased `selectedWords` into the process-wide custom list, uses
the provided segments or — when none were provided — runs the transcription
collaborator (the `transcribe` oracle standing for audio extraction, Whisper
and `parseWhisperJson`) and `findProfanityTimestamps`, then mutes and appends
the version record.  The post-success transcript re-parse of the handler only
decorates the response and touches no state. -/
def processProfanity (execMute : MutePlan → Except String Unit)
    (transcribe : Except String (List TranscriptEntry))
    (filterBadWords : String → String) (st : Store)
    (fileId sessionId : String) (segments : Option (List Seg))
    (selectedWords : List String) (sourceVersion : SourceVersion) :
    Outcome × Store :=
  match resolveInputPath st sessionId fileId sourceVersion with
  | .error o => (o, st)
  | .ok _inputPath =>
    match sessOf st sessionId with
    | none => (.internalError typeErrorMsg, st)
    | some session =>
      let outputPath := "processed/" ++ fileId ++ "_v" ++
        toString (session.currentVersion + 1) ++ "_profanity_filtered.mp4"
      let customList := selectedWords.foldl (fun acc w => setAdd acc (jsToLower w))
        st.customProfanityList
      let st1 := { st with customProfanityList := customList }
      let auto : Except String (List Seg) :=
        match transcribe with
        | .error e => .error e
        | .ok entries =>
          .ok (((findProfanityTimestamps customList filterBadWords entries
                  selectedWords).segments).map fun seg => ⟨seg.start, seg.«end»⟩)
      let finalSegments? := match segments with
                            | none => auto
                            | some l => if l.isEmpty then auto else .ok l
      match finalSegments? with
      | .error e => (.internalError e, st1)
      | .ok finalSegments =>
        match muteProfanitySegments execMute outputPath finalSegments with
        | .error e => (.internalError e, st1)
        | .ok filename =>
          let r := appendVersion st1 sessionId session "profanity_filter"
            filename sourceVersion
          (.ok r.1 filename, r.2)

/-! ### Concrete instances used by witnesses and counterexamples -/

/-- A trim executor that always succeeds. -/
def trimExecOk : TrimResult → Except String Unit := fun _ => .ok ()

/-- A mute executor that always succeeds. -/
def muteExecOk : MutePlan → Except String Unit := fun _ => .ok ()

/-- An audio-removal executor that always succeeds. -/
def audioExecOk : AudioRemovePlan → Except String Unit := fun _ => .ok ()

/-- A transcription oracle that always succeeds with an empty transcript. -/
def transcribeEmpty : Except String (List TranscriptEntry) := .ok []

/-- A store holding one fresh session `"s"` with an empty edit history. -/
def storeS : Store :=
  { videoSessions := [("s", { id := "s", videos := [], currentVersion := 0 })],
    editHistory := [("s", [])],
    customProfanityList := [] }

/-- The empty store: no session is registered. -/
def storeEmpty : Store :=
  { videoSessions := [], editHistory := [], customProfanityList := [] }

/-- A concrete external filter that redacts exactly the token `"damn"`. -/
def redactDamn : String → String := fun w => if w == "damn" then "d***" else w

/-- The identity filter: the external filter never changes a token. -/
def idFilter : String → String := fun w => w

/-- A transcript entry whose text is the single token `"damn"`. -/
def entryDamn : TranscriptEntry :=
  { index := 1, start := 10, «end» := 12, text := "damn", startSeconds := 10,
    endSeconds := 12, words := [] }

/-- A profanity segment holding a clean token `"hello"` and a profane token
`"damn"`. -/
def segHelloDamn : ProfanitySegment :=
  { start := 10, «end» := 12, text := "hello damn",
    highlightedWords := [⟨"hello", 0, false, none⟩, ⟨"damn", 1, true, some "list"⟩],
    index := 1 }

end VideoEditor

namespace VideoEditor

/-! ### Helper lemmas -/

theorem lookup_mapSet_self {α : Type} (m : List (String × α)) (k : String) (v : α) :
    (mapSet m k v).lookup k = some v := by
  induction m with
  | nil => simp [mapSet, List.lookup]
  | cons p rest ih =>
    obtain ⟨k0, v0⟩ := p
    by_cases h : k0 = k
    · subst h
      simp [mapSet, List.lookup]
    · have hk : (k0 == k) = false := beq_eq_false_iff_ne.mpr h
      have hk' : (k == k0) = false := beq_eq_false_iff_ne.mpr (Ne.symm h)
      simp [mapSet, List.lookup, hk, hk', ih]

theorem joinClauses_ranges_aux (segs : List Seg) : ∀ n : Nat,
    ((segs.enumFrom n).map fun p =>
        (⟨p.1, p.2.start, p.2.«end»⟩ : TrimClause)).map (fun c => (c.start, c.«end»)) =
      segs.map fun s => (s.start, s.«end») := by
  induction segs with
  | nil => intro n; rfl
  | cons s rest ih => intro n; simp [List.enumFrom, ih]

theorem joinClauses_labels_aux (segs : List Seg) : ∀ n : Nat,
    ((segs.enumFrom n).map fun p =>
        (⟨p.1, p.2.start, p.2.«end»⟩ : TrimClause)).map (fun c => c.label) =
      List.range' n segs.length := by
  induction segs with
  | nil => intro n; rfl
  | cons s rest ih => intro n; simp [List.enumFrom, List.range', ih]

theorem histOf_appendVersion (st : Store) (sid : String) (session : Session)
    (ty f : String) (sv : SourceVersion) :
    histOf (appendVersion st sid session ty f sv).2 sid =
      histOf st sid ++ [⟨session.currentVersion + 1, ty, f, sv⟩] := by
  simp [appendVersion, histOf, lookup_mapSet_self]

theorem sessOf_appendVersion (st : Store) (sid : String) (session : Session)
    (ty f : String) (sv : SourceVersion) :
    sessOf (appendVersion st sid session ty f sv).2 sid =
      some { session with currentVersion := session.currentVersion + 1 } := by
  simp [appendVersion, sessOf, lookup_mapSet_self]

theorem resolveInputPath_error_shape (st : Store) (sid fid : String)
    (sv : SourceVersion) (o : Outcome)
    (h : resolveInputPath st sid fid sv = .error o) :
    o = .notFound "Version not found" := by
  cases sv with
  | original => simp [resolveInputPath] at h
  | v n =>
    simp only [resolveInputPath] at h
    rcases hf : (histOf st sid).find? (fun e => (e.version : Int) == n) with _ | e <;>
      rw [hf] at h
    · simpa using h.symm
    · simp at h

theorem resolve_after_append (st : Store) (sid fileId : String)
    (session : Session) (ty f : String) (sv : SourceVersion)
    (hb : ∀ e ∈ histOf st sid, e.version ≤ session.currentVersion) :
    resolveInputPath (appendVersion st sid session ty f sv).2 sid fileId
      (.v ((session.currentVersion + 1 : Nat) : Int)) = .ok ("processed/" ++ f) := by
  have hh := histOf_appendVersion st sid session ty f sv
  have hnone : (histOf st sid).find?
      (fun e => (e.version : Int) == ((session.currentVersion + 1 : Nat) : Int)) =
        none := by
    rw [List.find?_eq_none]
    intro e he
    have hbound := hb e he
    simp only [beq_iff_eq, Int.natCast_inj]
    omega
  simp only [resolveInputPath, hh, List.find?_append, hnone]
  simp [List.find?]

theorem processTrim_ok (execT : TrimResult → Except String Unit) (st : Store)
    (fid sid : String) (segs : List Seg) (j : Bool) (sv : SourceVersion)
    (v : Nat) (outF : String)
    (h : (processTrim execT st fid sid segs j sv).1 = .ok v outF) :
    ∃ session, sessOf st sid = some session ∧ v = session.currentVersion + 1 ∧
      (processTrim execT st fid sid segs j sv).2 =
        (appendVersion st sid session "trim" outF sv).2 := by
  rcases hres : resolveInputPath st sid fid sv with o | ip
  · rw [resolveInputPath_error_shape st sid fid sv o hres] at hres
    simp [processTrim, hres] at h
  · rcases hsess : sessOf st sid with _ | session
    · simp [processTrim, hres, hsess] at h
    · rcases htv : trimVideo execT ("processed/" ++ fid ++ "_v" ++
          toString (session.currentVersion + 1) ++ "_trimmed.mp4") segs j with e | fn
      · simp [processTrim, hres, hsess, htv] at h
      · simp only [processTrim, hres, hsess, htv] at h
        obtain ⟨hv, hf⟩ := by simpa [appendVersion] using h
        refine ⟨session, rfl, hv.symm, ?_⟩
        simp only [processTrim, hres, hsess, htv]
        rw [hf]

theorem processProfanity_ok (execM : MutePlan → Except String Unit)
    (transcribe : Except String (List TranscriptEntry))
    (fb : String → String) (st : Store) (fid sid : String)
    (segs? : Option (List Seg)) (sw : List String) (sv : SourceVersion)
    (v : Nat) (outF : String)
    (h : (processProfanity execM transcribe fb st fid sid segs? sw sv).1 =
      .ok v outF) :
    ∃ session cl, sessOf st sid = some session ∧ v = session.currentVersion + 1 ∧
      (processProfanity execM transcribe fb st fid sid segs? sw sv).2 =
        (appendVersion { st with customProfanityList := cl } sid session
          "profanity_filter" outF sv).2 := by
  rcases hres : resolveInputPath st sid fid sv with o | ip
  · rw [resolveInputPath_error_shape st sid fid sv o hres] at hres
    simp [processProfanity, hres] at h
  · rcases hsess : sessOf st sid with _ | session
    · simp [processProfanity, hres, hsess] at h
    · simp only [processProfanity, hres, hsess] at h ⊢
      set cl := sw.foldl (fun acc w => setAdd acc (jsToLower w))
        st.customProfanityList with hcl
      split at h
      · simp at h
      · rename_i finalSegments hfs
        split at h
        · simp at h
        · rename_i fn hmute
          obtain ⟨hv, hf⟩ := by simpa [appendVersion] using h
          refine ⟨session, cl, rfl, hv.symm, ?_⟩
          rw [hf]

/-! ### C1 -/

/-- C1: recording a new version and then resolving it round-trips.  First
conjunct: for any session whose history only holds versions up to its
counter, `appendVersion` of output file `f` followed by `resolveInputPath`
at the returned number yields exactly `processed/f`.  Second and third
conjuncts: whenever the trim or the profanity handler succeeds with version
`v` and output `outF` on a store satisfying that bound, resolving
`sourceVersion = v` against the resulting store yields `processed/outF`. -/
theorem appendVersion_then_resolveInput (st : Store) (sid fileId : String)
    (sv : SourceVersion) (execT : TrimResult → Except String Unit)
    (execM : MutePlan → Except String Unit)
    (transcribe : Except String (List TranscriptEntry))
    (fb : String → String) (segs : List Seg) (segs? : Option (List Seg))
    (sw : List String) (j : Bool)
    (hb : ∀ s, sessOf st sid = some s →
      ∀ e ∈ histOf st sid, e.version ≤ s.currentVersion) :
    (∀ (session : Session) (ty f : String),
      (∀ e ∈ histOf st sid, e.version ≤ session.currentVersion) →
      resolveInputPath (appendVersion st sid session ty f sv).2 sid fileId
        (.v ((appendVersion st sid session ty f sv).1 : Int)) =
        .ok ("processed/" ++ f)) ∧
    (∀ v outF, (processTrim execT st fileId sid segs j sv).1 = .ok v outF →
      resolveInputPath (processTrim execT st fileId sid segs j sv).2 sid fileId
        (.v (v : Int)) = .ok ("processed/" ++ outF)) ∧
    (∀ v outF,
      (processProfanity execM transcribe fb st fileId sid segs? sw sv).1 =
        .ok v outF →
      resolveInputPath
        (processProfanity execM transcribe fb st fileId sid segs? sw sv).2 sid
        fileId (.v (v : Int)) = .ok ("processed/" ++ outF)) := by
  refine ⟨?_, ?_, ?_⟩
  · intro session ty f hbs
    exact resolve_after_append st sid fileId session ty f sv hbs
  · intro v outF h
    obtain ⟨session, hsess, hv, hst⟩ :=
      processTrim_ok execT st fileId sid segs j sv v outF h
    rw [hst, hv]
    exact resolve_after_append st sid fileId session "trim" outF sv
      (hb session hsess)
  · intro v outF h
    obtain ⟨session, cl, hsess, hv, hst⟩ :=
      processProfanity_ok execM transcribe fb st fileId sid segs? sw sv v outF h
    rw [hst, hv]
    exact resolve_after_append { st with customProfanityList := cl } sid fileId
      session "profanity_filter" outF sv (hb session hsess)

/-- Witness for C1: a trim and a profanity edit on a fresh session both
record version 1, and resolving version 1 afterwards returns the recorded
file. -/
theorem appendVersion_then_resolveInput_witness :
    resolveInputPath
      (processTrim trimExecOk storeS "f" "s" [⟨1, 2⟩, ⟨3, 4⟩] true .original).2
      "s" "f" (.v 1) = .ok "processed/f_v1_trimmed.mp4" ∧
    resolveInputPath
      (processProfanity muteExecOk transcribeEmpty idFilter storeS "f" "s"
        (some [⟨1, 2⟩]) [] .original).2
      "s" "f" (.v 1) = .ok "processed/f_v1_profanity_filtered.mp4" := by
  have h := appendVersion_then_resolveInput storeS "s" "f" .original trimExecOk
    muteExecOk transcribeEmpty idFilter [⟨1, 2⟩, ⟨3, 4⟩] (some [⟨1, 2⟩]) [] true
    (by intro s hs e he; simp [histOf, storeS, List.lookup] at he)
  refine ⟨?_, ?_⟩
  · have := h.2.1 1 "f_v1_trimmed.mp4" (by decide)
    simpa using this
  · have := h.2.2 1 "f_v1_profanity_filtered.mp4" (by decide)
    simpa using this

/-! ### C2 -/

/-- C2: one range with join requested, and several ranges without join, are
rejected as an invalid configuration with no output and without consulting
the executor; one range without join builds a single clip from `start` of
duration `end - start` (so it covers exactly `[start, end)`), and several
ranges with join build the joined concatenation plan. -/
theorem trimVideo_configuration_cases (exec : TrimResult → Except String Unit)
    (out : String) (r : Seg) (segs : List Seg) (hlen : 1 < segs.length) :
    trimVideo exec out [r] true = .error "Invalid trim configuration" ∧
    trimVideo exec out segs false = .error "Invalid trim configuration" ∧
    (∃ d, trimVideoPlan [r] false = .ok (.single r.start d) ∧
      r.start + d = r.«end» ∧
      (exec (.single r.start d) = .ok () →
        trimVideo exec out [r] false = .ok (basename out))) ∧
    (trimVideoPlan segs true = .ok (.joined (buildJoinClauses segs) segs.length) ∧
      (exec (.joined (buildJoinClauses segs) segs.length) = .ok () →
        trimVideo exec out segs true = .ok (basename out))) := by
  have h1 : (segs.length == 1) = false := by
    simp only [beq_eq_false_iff_ne, ne_eq]
    omega
  refine ⟨?_, ?_, ?_, ?_, ?_⟩
  · simp [trimVideo, trimVideoPlan]
  · simp [trimVideo, trimVideoPlan, h1]
  · refine ⟨r.«end» - r.start, ?_, by ring, ?_⟩
    · simp [trimVideoPlan]
    · intro hx
      simp [trimVideo, trimVideoPlan, hx]
  · simp [trimVideoPlan, h1, hlen]
  · intro hx
    simp [trimVideo, trimVideoPlan, h1, hlen, hx]

/-- Witness for C2 at concrete ranges. -/
theorem trimVideo_configuration_cases_witness :
    trimVideo trimExecOk "processed/out.mp4" [⟨5, 7⟩] true =
      .error "Invalid trim configuration" ∧
    trimVideo trimExecOk "processed/out.mp4" [⟨1, 2⟩, ⟨3, 4⟩] false =
      .error "Invalid trim configuration" ∧
    (∃ d, trimVideoPlan [(⟨5, 7⟩ : Seg)] false = .ok (.single 5 d) ∧
      (5 : Rat) + d = 7) ∧
    trimVideoPlan [(⟨1, 2⟩ : Seg), ⟨3, 4⟩] true =
      .ok (.joined [⟨0, 1, 2⟩, ⟨1, 3, 4⟩] 2) ∧
    trimVideo trimExecOk "processed/out.mp4" [⟨1, 2⟩, ⟨3, 4⟩] true =
      .ok "out.mp4" := by
  have h := trimVideo_configuration_cases trimExecOk "processed/out.mp4" ⟨5, 7⟩
    [⟨1, 2⟩, ⟨3, 4⟩] (by decide)
  obtain ⟨d, hd1, hd2, _⟩ := h.2.2.1
  refine ⟨h.1, h.2.1, ⟨d, hd1, hd2⟩, ?_, ?_⟩
  · exact h.2.2.2.1.trans (by decide)
  · exact (h.2.2.2.2 rfl).trans (by decide)

/-! ### C3 -/

/-- C3 counterexample: a profanity segment contains the highlighted token
`"hello"` whose lowercased text is in the selected set, yet the code emits no
range for it, because the token is not flagged profane; the filter the
specification words (no profane-flag requirement) disagrees with the code at
this input. -/
theorem wordSelection_claim_counterexample :
    (∃ hw ∈ segHelloDamn.highlightedWords, jsToLower hw.word ∈ ["hello"]) ∧
    filterSegmentsBySelectedWords [segHelloDamn] ["hello"] = [] ∧
    filterSegmentsSpecWorded [segHelloDamn] ["hello"] = [(10, 12)] := by
  refine ⟨⟨⟨"hello", 0, false, none⟩, by decide, by decide⟩, by decide, by decide⟩

/-- C3 (amended): the word-selection path emits exactly the `(start, end)`
ranges, in order, of those profanity segments containing at least one
profane-flagged highlighted token whose lowercased text is in the selected
set; a segment with no such hit contributes no range, and the empty
selection yields zero ranges. -/
theorem wordSelection_filter_amended (pd : List ProfanitySegment)
    (sel : List String) :
    filterSegmentsBySelectedWords pd sel =
      pd.foldr (fun s acc =>
        if ∃ hw ∈ s.highlightedWords,
            hw.isProfane = true ∧ jsToLower hw.word ∈ sel
        then (s.start, s.«end») :: acc else acc) [] ∧
    filterSegmentsBySelectedWords pd [] = [] := by
  constructor
  · induction pd with
    | nil => rfl
    | cons s rest ih =>
      by_cases hs : ∃ hw ∈ s.highlightedWords,
          hw.isProfane = true ∧ jsToLower hw.word ∈ sel
      · have hb : (s.highlightedWords.any fun hw =>
            hw.isProfane && sel.contains (jsToLower hw.word)) = true := by
          rw [List.any_eq_true]
          obtain ⟨hw, hmem, hp, hsel⟩ := hs
          refine ⟨hw, hmem, ?_⟩
          simp [hp, hsel]
        simp only [filterSegmentsBySelectedWords, List.filter_cons, hb, if_true,
          List.map_cons, List.foldr_cons, if_pos hs] at ih ⊢
        rw [ih]
      · have hb : (s.highlightedWords.any fun hw =>
            hw.isProfane && sel.contains (jsToLower hw.word)) = false := by
          rw [List.any_eq_false]
          intro hw hmem
          simp only [Bool.and_eq_true, not_and]
          intro hp hsel
          exact hs ⟨hw, hmem, hp, by simpa using hsel⟩
        simp only [filterSegmentsBySelectedWords, List.filter_cons, hb,
          Bool.false_eq_true, if_false, List.foldr_cons, if_neg hs] at ih ⊢
        rw [ih]
  · induction pd with
    | nil => rfl
    | cons s rest ih =>
      have hb : (s.highlightedWords.any fun hw =>
          hw.isProfane && List.contains [] (jsToLower hw.word)) = false := by
        simp
      simp only [filterSegmentsBySelectedWords, List.filter_cons, hb,
        Bool.false_eq_true, if_false] at ih ⊢
      exact ih

/-! ### C4 -/

/-- C4 counterexample: `"damn"` is in the combined vocabulary and the
external filter also changes it, yet the recorded detection source is
`"filter"`, not `"list"`: the filter signal, not the list, takes priority
when both fire. -/
theorem detection_source_counterexample :
    (getAllProfanityWords [] []).contains (jsToLower "damn") = true ∧
    redactDamn "damn" ≠ "damn" ∧
    (findProfanityTimestamps [] redactDamn [entryDamn] []).segments =
      [{ start := 10, «end» := 12, text := "damn",
         highlightedWords := [⟨"damn", 0, true, some "filter"⟩], index := 1 }] := by
  exact ⟨by decide, by decide, by decide⟩

theorem loopWords_characterization (vocab : List String) (fb : String → String)
    (entry : TranscriptEntry) : ∀ (ws : List String) (i : Nat),
    ∀ hw ∈ (loopWords vocab fb entry i ws).1,
      hw.isProfane = (vocab.contains (jsToLower hw.word) || fb hw.word != hw.word) ∧
      hw.detectedBy = (if hw.isProfane = true
        then some (if (fb hw.word != hw.word) = true then "filter" else "list")
        else none) := by
  intro ws
  induction ws with
  | nil =>
    intro i hw hmem
    simp [loopWords] at hmem
  | cons w rest ih =>
    intro i hw hmem
    simp only [loopWords] at hmem
    split at hmem
    · rename_i hc
      rcases List.mem_cons.mp hmem with hhw | hhw
      · subst hhw
        simp only [hc]
        simp
      · exact ih (i + 1) hw hhw
    · rename_i hc
      rcases List.mem_cons.mp hmem with hhw | hhw
      · subst hhw
        rw [Bool.not_eq_true] at hc
        exact ⟨hc.symm, by simp⟩
      · exact ih (i + 1) hw hhw

theorem findProfanityLoop_hw_prop (vocab : List String) (fb : String → String)
    (P : HighlightedWord → Prop)
    (hP : ∀ (e : TranscriptEntry) (i : Nat) (ws : List String),
      ∀ hw ∈ (loopWords vocab fb e i ws).1, P hw) :
    ∀ (entries : List TranscriptEntry),
      ∀ seg ∈ (findProfanityLoop vocab fb entries).segments,
      ∀ hw ∈ seg.highlightedWords, P hw := by
  intro entries
  induction entries with
  | nil =>
    intro seg hseg
    simp [findProfanityLoop] at hseg
  | cons e rest ih =>
    intro seg hseg hw hhw
    simp only [findProfanityLoop] at hseg
    split at hseg
    · rcases List.mem_cons.mp hseg with hs | hs
      · subst hs
        exact hP e 0 (jsSplitChar ' ' e.text) hw hhw
      · exact ih seg hs hw hhw
    · exact ih seg hseg hw hhw

/-- C4 (amended): for every highlighted token of every emitted profanity
segment, when both the vocabulary matches (case-insensitive exact match) and
the external filter changed the token, the recorded detection source is
`"filter"` — the filter takes priority; `"list"` is recorded exactly when the
token is profane and the filter left it unchanged, which forces the
vocabulary match. -/
theorem detection_source_amended (cl : List String) (fb : String → String)
    (entries : List TranscriptEntry) (cw : List String) :
    ∀ seg ∈ (findProfanityTimestamps cl fb entries cw).segments,
    ∀ hw ∈ seg.highlightedWords,
      ((getAllProfanityWords cl cw).contains (jsToLower hw.word) = true →
        fb hw.word ≠ hw.word → hw.detectedBy = some "filter") ∧
      (hw.detectedBy = some "list" →
        (getAllProfanityWords cl cw).contains (jsToLower hw.word) = true ∧
        fb hw.word = hw.word) := by
  have key := findProfanityLoop_hw_prop (getAllProfanityWords cl cw) fb
    (fun hw =>
      hw.isProfane =
        ((getAllProfanityWords cl cw).contains (jsToLower hw.word) ||
          fb hw.word != hw.word) ∧
      hw.detectedBy = (if hw.isProfane = true
        then some (if (fb hw.word != hw.word) = true then "filter" else "list")
        else none))
    (fun e i ws hw hmem =>
      loopWords_characterization (getAllProfanityWords cl cw) fb e ws i hw hmem)
  intro seg hseg hw hhw
  obtain ⟨ha, hb⟩ := key entries seg hseg hw hhw
  constructor
  · intro hcont hne
    have hbne : (fb hw.word != hw.word) = true := bne_iff_ne.mpr hne
    have hp : hw.isProfane = true := by rw [ha, hcont, hbne]; rfl
    rw [hb, if_pos hp, if_pos hbne]
  · intro hdb
    by_cases hp : hw.isProfane = true
    · rw [hb, if_pos hp] at hdb
      by_cases hbne : (fb hw.word != hw.word) = true
      · rw [if_pos hbne] at hdb
        simp at hdb
      · rw [if_neg hbne] at hdb
        have heq : fb hw.word = hw.word := by
          simpa using hbne
        refine ⟨?_, heq⟩
        rw [hp] at ha
        have hor := ha.symm
        have hbf : (fb hw.word != hw.word) = false := by simp [heq]
        rw [hbf, Bool.or_false] at hor
        exact hor
    · rw [hb, if_neg hp] at hdb
      simp at hdb

/-- Witness for C4 (amended) at the token `"damn"`: with a redacting filter
both signals fire and the source is `"filter"`; with the identity filter the
source `"list"` certifies the vocabulary match. -/
theorem detection_source_amended_witness :
    (⟨"damn", 0, true, some "filter"⟩ : HighlightedWord).detectedBy =
      some "filter" ∧
    (getAllProfanityWords [] []).contains
      (jsToLower (⟨"damn", 0, true, some "list"⟩ : HighlightedWord).word) = true ∧
    idFilter "damn" = "damn" := by
  have h1 := detection_source_amended [] redactDamn [entryDamn] []
    { start := 10, «end» := 12, text := "damn",
      highlightedWords := [⟨"damn", 0, true, some "filter"⟩], index := 1 }
    (by decide) ⟨"damn", 0, true, some "filter"⟩ (by decide)
  have h2 := detection_source_amended [] idFilter [entryDamn] []
    { start := 10, «end» := 12, text := "damn",
      highlightedWords := [⟨"damn", 0, true, some "list"⟩], index := 1 }
    (by decide) ⟨"damn", 0, true, some "list"⟩ (by decide)
  exact ⟨h1.1 (by decide) (by decide), (h2.2 rfl).1, (h2.2 rfl).2⟩

/-! ### C5 -/

theorem loopWords_hasProfanity (vocab : List String) (fb : String → String)
    (entry : TranscriptEntry) : ∀ (ws : List String) (i : Nat),
    (loopWords vocab fb entry i ws).2.2 =
      ws.any fun w => vocab.contains (jsToLower w) || fb w != w := by
  intro ws
  induction ws with
  | nil => intro i; rfl
  | cons w rest ih =>
    intro i
    simp only [loopWords, List.any_cons]
    by_cases hc : (vocab.contains (jsToLower w) || fb w != w) = true
    · rw [if_pos hc, hc, Bool.true_or]
    · rw [Bool.not_eq_true] at hc
      rw [hc, Bool.false_or]
      simp only [Bool.false_eq_true, if_false]
      exact ih (i + 1)

/-- C5: an entry contributes a profanity segment exactly when at least one of
its space-split tokens is classified profane, and the emitted segment carries
the entry's start and end seconds, text and index verbatim — entry
granularity, never narrowed by word-level timing. -/
theorem profanity_entry_granularity (cl : List String) (fb : String → String)
    (entries : List TranscriptEntry) (cw : List String) :
    (findProfanityTimestamps cl fb entries cw).segments =
      (entries.filter fun e => (jsSplitChar ' ' e.text).any fun w =>
          (getAllProfanityWords cl cw).contains (jsToLower w) || fb w != w).map
        fun e =>
          { start := e.startSeconds, «end» := e.endSeconds, text := e.text,
            highlightedWords :=
              (loopWords (getAllProfanityWords cl cw) fb e 0
                (jsSplitChar ' ' e.text)).1,
            index := e.index } := by
  unfold findProfanityTimestamps
  induction entries with
  | nil => rfl
  | cons e rest ih =>
    by_cases hp : ((jsSplitChar ' ' e.text).any fun w =>
        (getAllProfanityWords cl cw).contains (jsToLower w) || fb w != w) = true
    · have hl : (loopWords (getAllProfanityWords cl cw) fb e 0
          (jsSplitChar ' ' e.text)).2.2 = true := by
        rw [loopWords_hasProfanity]
        exact hp
      simp only [findProfanityLoop, hl, if_true, List.filter_cons, hp,
        List.map_cons]
      rw [ih]
    · rw [Bool.not_eq_true] at hp
      have hl : (loopWords (getAllProfanityWords cl cw) fb e 0
          (jsSplitChar ' ' e.text)).2.2 = false := by
        rw [loopWords_hasProfanity]
        exact hp
      simp only [findProfanityLoop, hl, Bool.false_eq_true, if_false,
        List.filter_cons, hp]
      exact ih

/-! ### C7 -/

theorem processAudioRemove_not_ok_unchanged
    (execA : AudioRemovePlan → Except String Unit) (st : Store)
    (fid sid : String) (segs? : Option (List Seg)) (sv : SourceVersion)
    (h : (processAudioRemove execA st fid sid segs? sv).1.isOk = false) :
    (processAudioRemove execA st fid sid segs? sv).2 = st := by
  rcases hres : resolveInputPath st sid fid sv with o | ip
  · simp [processAudioRemove, hres]
  · rcases hsess : sessOf st sid with _ | session
    · simp [processAudioRemove, hres, hsess]
    · rcases har : removeAudioFromSegments execA ("processed/" ++ fid ++ "_v" ++
          toString (session.currentVersion + 1) ++ "_audio_removed.mp4") segs?
          with e | fn
      · simp [processAudioRemove, hres, hsess, har]
      · simp [processAudioRemove, hres, hsess, har, Outcome.isOk] at h

/-- C7: a failing edit request leaves the session store untouched.  When the
trim or audio-remove handler does not succeed (a configuration error or an
executor failure, both surfacing as a 500, or a version 404), the whole
store is unchanged; when the profanity handler does not succeed, the
session's history and session record (counter included) are unchanged.  And
a version record is appended only after the executor reports success: a
successful trim means `trimVideo` resolved, and the history grows by exactly
the one record carrying the new version and output file. -/
theorem handlers_append_only_on_success
    (execT : TrimResult → Except String Unit)
    (execA : AudioRemovePlan → Except String Unit)
    (execM : MutePlan → Except String Unit)
    (transcribe : Except String (List TranscriptEntry))
    (fb : String → String) (st : Store) (fid sid : String) (segs : List Seg)
    (segs? : Option (List Seg)) (j : Bool) (sw : List String)
    (sv : SourceVersion) :
    ((processTrim execT st fid sid segs j sv).1.isOk = false →
      (processTrim execT st fid sid segs j sv).2 = st) ∧
    ((processAudioRemove execA st fid sid segs? sv).1.isOk = false →
      (processAudioRemove execA st fid sid segs? sv).2 = st) ∧
    ((processProfanity execM transcribe fb st fid sid segs? sw sv).1.isOk =
        false →
      histOf (processProfanity execM transcribe fb st fid sid segs? sw sv).2
          sid = histOf st sid ∧
      sessOf (processProfanity execM transcribe fb st fid sid segs? sw sv).2
          sid = sessOf st sid) ∧
    (∀ v outF, (processTrim execT st fid sid segs j sv).1 = .ok v outF →
      ∃ session, sessOf st sid = some session ∧
        trimVideo execT ("processed/" ++ fid ++ "_v" ++
          toString (session.currentVersion + 1) ++ "_trimmed.mp4") segs j =
          .ok outF ∧
        histOf (processTrim execT st fid sid segs j sv).2 sid =
          histOf st sid ++ [⟨v, "trim", outF, sv⟩]) := by
  refine ⟨?_, processAudioRemove_not_ok_unchanged execA st fid sid segs? sv,
    ?_, ?_⟩
  · intro h
    rcases hres : resolveInputPath st sid fid sv with o | ip
    · simp [processTrim, hres]
    · rcases hsess : sessOf st sid with _ | session
      · simp [processTrim, hres, hsess]
      · rcases htv : trimVideo execT ("processed/" ++ fid ++ "_v" ++
            toString (session.currentVersion + 1) ++ "_trimmed.mp4") segs j
            with e | fn
        · simp [processTrim, hres, hsess, htv]
        · simp [processTrim, hres, hsess, htv, Outcome.isOk] at h
  · intro h
    rcases hres : resolveInputPath st sid fid sv with o | ip
    · simp [processProfanity, hres]
    · rcases hsess : sessOf st sid with _ | session
      · simp [processProfanity, hres, hsess]
      · simp only [processProfanity, hres, hsess] at h ⊢
        split at h
        · exact ⟨rfl, hsess⟩
        · split at h
          · exact ⟨rfl, hsess⟩
          · simp [Outcome.isOk] at h
  · intro v outF h
    rcases hres : resolveInputPath st sid fid sv with o | ip
    · rw [resolveInputPath_error_shape st sid fid sv o hres] at hres
      simp [processTrim, hres] at h
    · rcases hsess : sessOf st sid with _ | session
      · simp [processTrim, hres, hsess] at h
      · rcases htv : trimVideo execT ("processed/" ++ fid ++ "_v" ++
            toString (session.currentVersion + 1) ++ "_trimmed.mp4") segs j
            with e | fn
        · simp [processTrim, hres, hsess, htv] at h
        · simp only [processTrim, hres, hsess, htv] at h
          obtain ⟨hv, hf⟩ := by simpa [appendVersion] using h
          refine ⟨session, rfl, by rw [htv, hf], ?_⟩
          simp only [processTrim, hres, hsess, htv]
          rw [histOf_appendVersion, hv, hf]

/-- Witness for C7: a trim with an invalid configuration leaves the store
unchanged, and a successful trim appends exactly its one version record. -/
theorem handlers_append_only_on_success_witness :
    (processTrim trimExecOk storeS "f" "s" [] false .original).2 = storeS ∧
    histOf (processTrim trimExecOk storeS "f" "s" [⟨1, 2⟩, ⟨3, 4⟩] true
        .original).2 "s" =
      histOf storeS "s" ++ [⟨1, "trim", "f_v1_trimmed.mp4", .original⟩] := by
  have h1 := (handlers_append_only_on_success trimExecOk audioExecOk muteExecOk
    transcribeEmpty idFilter storeS "f" "s" [] (some []) false []
    .original).1 (by decide)
  obtain ⟨session, hs, htv, hh⟩ := (handlers_append_only_on_success trimExecOk
    audioExecOk muteExecOk transcribeEmpty idFilter storeS "f" "s"
    [⟨1, 2⟩, ⟨3, 4⟩] (some []) true [] .original).2.2.2 1 "f_v1_trimmed.mp4"
    (by decide)
  exact ⟨h1, hh⟩

/-! ### C9 -/

theorem srtBlockEntry_falsy (line : String) (t? x? : Option String)
    (h : (jsTruthy t? && jsTruthy x?) = false) :
    srtBlockEntry line t? x? = .ok none := by
  simp [srtBlockEntry, h]

/-- C9 counterexample: an input whose block has a present index line, a
non-empty timestamp line without the arrow separator, and a non-empty text
line makes the parser throw — it dereferences the missing second half of the
timestamp split — so the parser does not return an entry list for every raw
SRT input string. -/
theorem parseSRT_error_counterexample :
    parseSRT "1\na\nb" = .error "TypeError: end is undefined" := by decide

/-- C9 (amended): a block whose index line is present but whose timestamp
line or text line is missing or empty is skipped: the parser jumps 4 lines
ahead with no entry and no error contributed by that block.  (A present but
malformed timestamp line may still make the parser error.) -/
theorem parseSRT_skips_incomplete_block (line : String) (rest : List String)
    (hd : isDigitsOnly line = true)
    (ht : (jsTruthy rest[0]? && jsTruthy rest[1]?) = false) :
    parseSRTLines (line :: rest) = parseSRTLines (rest.drop 3) := by
  match rest with
  | [] => simp [parseSRTLines, hd, srtBlockEntry_falsy line none none ht]
  | [t1] =>
    simp [parseSRTLines, hd, srtBlockEntry_falsy line (some t1) none ht]
  | [t1, t2] =>
    simp [parseSRTLines, hd, srtBlockEntry_falsy line (some t1) (some t2) ht]
  | t1 :: t2 :: t3 :: rest' =>
    have hb : srtBlockEntry line (t1 :: t2 :: t3 :: rest')[0]?
        (t1 :: t2 :: t3 :: rest')[1]? = .ok none :=
      srtBlockEntry_falsy line _ _ ht
    simp only [parseSRTLines, hd, if_true, hb]
    rw [show List.drop 3 (t1 :: t2 :: t3 :: rest') = rest' from rfl]
    cases parseSRTLines rest' <;> rfl

/-- Witness for C9 (amended): an index line followed by a timestamp line but
no text line is skipped without an error. -/
theorem parseSRT_skips_incomplete_block_witness :
    parseSRTLines ["1", "00:00:01,000 --> 00:00:02,000"] = parseSRTLines [] ∧
    parseSRTLines [] = .ok [] := by
  refine ⟨?_, rfl⟩
  exact parseSRT_skips_incomplete_block "1" ["00:00:01,000 --> 00:00:02,000"]
    (by decide) (by decide)

/-! ### C6 -/

/-- C6: for a join request with two or more ranges, the concatenation plan
lists the per-range trimmed streams in exactly the caller-supplied order:
clause `i` carries the `i`-th range's bounds and the labels are `0, 1, ...`
in order, so no reordering or sorting by time ever happens. -/
theorem trimVideo_join_order (segs : List Seg) (h : 1 < segs.length) :
    trimVideoPlan segs true = .ok (.joined (buildJoinClauses segs) segs.length) ∧
    (buildJoinClauses segs).map (fun c => (c.start, c.«end»)) =
      segs.map (fun s => (s.start, s.«end»)) ∧
    (buildJoinClauses segs).map (fun c => c.label) = List.range segs.length := by
  have h1 : (segs.length == 1) = false := by
    simp only [beq_eq_false_iff_ne, ne_eq]
    omega
  refine ⟨by simp [trimVideoPlan, h1, h], ?_, ?_⟩
  · exact joinClauses_ranges_aux segs 0
  · rw [List.range_eq_range']
    exact joinClauses_labels_aux segs 0

/-- Witness for C6 at ranges deliberately not sorted by time. -/
theorem trimVideo_join_order_witness :
    trimVideoPlan [(⟨5, 9⟩ : Seg), ⟨0, 2⟩] true =
      .ok (.joined (buildJoinClauses [⟨5, 9⟩, ⟨0, 2⟩]) 2) ∧
    (buildJoinClauses [(⟨5, 9⟩ : Seg), ⟨0, 2⟩]).map (fun c => (c.start, c.«end»)) =
      [(5, 9), (0, 2)] ∧
    (buildJoinClauses [(⟨5, 9⟩ : Seg), ⟨0, 2⟩]).map (fun c => c.label) = [0, 1] := by
  have h := trimVideo_join_order [⟨5, 9⟩, ⟨0, 2⟩] (by decide)
  exact ⟨h.1, h.2.1.trans (by decide), h.2.2.trans (by decide)⟩

/-! ### C8 -/

/-- C8: the audio-mute operation with zero ranges takes the explicit
pass-through branch: the plan is a plain copy (no filter graph) and whenever
the copy succeeds the operation succeeds with the output basename, rather
than failing with an error. -/
theorem muteProfanitySegments_zero_ranges (exec : MutePlan → Except String Unit)
    (out : String) (h : exec MutePlan.copyFile = .ok ()) :
    muteProfanitySegments exec out [] = .ok (basename out) := by
  simp [muteProfanitySegments, h]

/-- Witness for C8 with a succeeding copy executor. -/
theorem muteProfanitySegments_zero_ranges_witness :
    muteProfanitySegments muteExecOk "processed/x_v1_profanity_filtered.mp4" [] =
      .ok "x_v1_profanity_filtered.mp4" := by
  have h := muteProfanitySegments_zero_ranges muteExecOk
    "processed/x_v1_profanity_filtered.mp4" rfl
  rw [h]
  decide

/-! ### C10 -/

/-- C10: with `sourceVersion = 'original'` the three edit handlers resolve the
input path without any session-existence check; when the session id is
unknown they then throw reading the missing session's version counter, so the
request surfaces as a generic 500 internal error (never as a session
not-found response) and the store is unchanged. -/
theorem unknown_session_original_internal_error
    (execT : TrimResult → Except String Unit)
    (execA : AudioRemovePlan → Except String Unit)
    (execM : MutePlan → Except String Unit)
    (transcribe : Except String (List TranscriptEntry))
    (fb : String → String) (st : Store) (fid sid : String) (segs : List Seg)
    (segs? : Option (List Seg)) (j : Bool) (sw : List String)
    (h : sessOf st sid = none) :
    resolveInputPath st sid fid .original = .ok ("uploads/" ++ fid ++ ".mp4") ∧
    processTrim execT st fid sid segs j .original =
      (.internalError typeErrorMsg, st) ∧
    processAudioRemove execA st fid sid segs? .original =
      (.internalError typeErrorMsg, st) ∧
    processProfanity execM transcribe fb st fid sid segs? sw .original =
      (.internalError typeErrorMsg, st) := by
  refine ⟨rfl, ?_, ?_, ?_⟩ <;>
    simp [processTrim, processAudioRemove, processProfanity, resolveInputPath, h]

/-- Witness for C10 at the empty store. -/
theorem unknown_session_original_internal_error_witness :
    resolveInputPath storeEmpty "s" "f" .original = .ok "uploads/f.mp4" ∧
    processTrim trimExecOk storeEmpty "f" "s" [⟨1, 2⟩, ⟨3, 4⟩] true .original =
      (.internalError typeErrorMsg, storeEmpty) ∧
    processAudioRemove audioExecOk storeEmpty "f" "s" (some [⟨1, 2⟩]) .original =
      (.internalError typeErrorMsg, storeEmpty) ∧
    processProfanity muteExecOk transcribeEmpty idFilter storeEmpty "f" "s"
      (some [⟨1, 2⟩]) [] .original = (.internalError typeErrorMsg, storeEmpty) := by
  have h := unknown_session_original_internal_error trimExecOk audioExecOk
    muteExecOk transcribeEmpty idFilter storeEmpty "f" "s" [⟨1, 2⟩, ⟨3, 4⟩]
    (some [⟨1, 2⟩]) true [] rfl
  exact ⟨(by decide : resolveInputPath storeEmpty "s" "f" .original =
    .ok "uploads/f.mp4"), h.2.1, h.2.2.1, h.2.2.2⟩

end VideoEditor

